import Mathlib

/-!
Shallow embedding of the crosscode-localization-engine FFI boundary:
the C result enumeration from src/ffi/crosslocale.h and the node addon
message codec from src/node-bindings/addon.cc
(BackendMessage::to_js_value_impl, BackendMessageFromJs::from_js_value_impl,
FfiBackendException::to_node_error, NodeBackend, NodeRecvMessageWorker, Init).
-/

namespace CrossLocale

/-! ## Error taxonomy (src/ffi/crosslocale.h, enum crosslocale_result)

The header declares exactly four result codes:
CROSSLOCALE_OK = 0, CROSSLOCALE_ERR_GENERIC_RUST_PANIC = 1,
CROSSLOCALE_ERR_BACKEND_DISCONNECTED = 2, CROSSLOCALE_ERR_SPAWN_THREAD_FAILED = 4.
Note that the numeric value 3 is skipped. -/

inductive CrosslocaleResult where
  | ok
  | errGenericRustPanic
  | errBackendDisconnected
  | errSpawnThreadFailed
  deriving DecidableEq, Repr

/-- Numeric values of the result codes, exactly as fixed in crosslocale.h. -/
def CrosslocaleResult.toCode : CrosslocaleResult → Nat
  | .ok => 0
  | .errGenericRustPanic => 1
  | .errBackendDisconnected => 2
  | .errSpawnThreadFailed => 4

/-- Symbolic identifiers of the result codes, matching the C enumerator names
in crosslocale.h.  The Rust implementation of crosslocale_error_id_str is not
under src/; the header only declares the lookup.  Modelled from the spec:
"a symbolic identifier obtainable by lookup", a pure function of the code. -/
def CrosslocaleResult.idString : CrosslocaleResult → String
  | .ok => "CROSSLOCALE_OK"
  | .errGenericRustPanic => "CROSSLOCALE_ERR_GENERIC_RUST_PANIC"
  | .errBackendDisconnected => "CROSSLOCALE_ERR_BACKEND_DISCONNECTED"
  | .errSpawnThreadFailed => "CROSSLOCALE_ERR_SPAWN_THREAD_FAILED"

/-- Modelled from the spec: the Rust implementation of
crosslocale_error_description is not under src/ (the header only declares it).
The spec states every code has "a human-readable description ... obtainable by
lookup", a pure function of the code; the description texts follow the spec's
own glosses of each code. -/
def crosslocale_error_description : CrosslocaleResult → String
  | .ok => "no error"
  | .errGenericRustPanic => "the worker's execution faulted unrecoverably"
  | .errBackendDisconnected => "the half-channel's peer is gone"
  | .errSpawnThreadFailed => "worker thread could not be started at construction time"

/-- The addon checks crosslocale_error_id_str for NULL before attaching the
"code" property (addon.cc line 54); the lookup itself never returns NULL for a
valid code, so the model returns some of the symbolic identifier. -/
def crosslocale_error_id_str (c : CrosslocaleResult) : Option String :=
  some c.idString

/-! ## Numeric model

JS numbers are IEEE-754 binary64 values.  A finite double is modelled by its
exact rational value; NaN and the infinities are separate constructors.
(The model does not distinguish a negative zero.) -/

inductive DoubleM where
  | finite (q : ℚ)
  | nan
  | posInf
  | negInf
  deriving DecidableEq, Repr

/-- Truncation of a rational toward zero, the rounding C uses when converting
a double to an integer type. -/
def ratTrunc (q : ℚ) : Int := Int.tdiv q.num (q.den : Int)

/-- The conversion double → uint64_t of addon.cc line 220
(int64_t n_int = (uint64_t)n_float).  Where the C conversion is defined
(0 ≤ trunc < 2^64) this is exact; outside that range the C source has no
defined value and the model resolves it to two's-complement wraparound of the
truncated value, the behavior of the x86-64 targets this node addon is built
for. -/
def castU64 (t : Int) : Nat := (t % (2 ^ 64 : Int)).toNat

/-- Reinterpretation uint64_t → int64_t (two's complement). -/
def i64OfU64 (u : Nat) : Int :=
  if u < 2 ^ 63 then (u : Int) else (u : Int) - 2 ^ 64

/-- The full conversion on addon.cc line 220: truncate the double, pass it
through uint64_t, and store it in an int64_t. -/
def doubleToI64cast (q : ℚ) : Int := i64OfU64 (castU64 (ratTrunc q))

/-- Exponent of the rounding granule when an integer magnitude n is rounded to
binary64: a double with |value| in [2^(52+e), 2^(53+e)) carries multiples of
2^e.  The chain covers magnitudes up to 2^64, enough for every int64_t. -/
def expFor (n : Nat) : Nat :=
  if n < 2 ^ 53 then 0
  else if n < 2 ^ 54 then 1
  else if n < 2 ^ 55 then 2
  else if n < 2 ^ 56 then 3
  else if n < 2 ^ 57 then 4
  else if n < 2 ^ 58 then 5
  else if n < 2 ^ 59 then 6
  else if n < 2 ^ 60 then 7
  else if n < 2 ^ 61 then 8
  else if n < 2 ^ 62 then 9
  else if n < 2 ^ 63 then 10
  else 11

/-- Round n to the nearest multiple of 2^e, ties to even (the IEEE default
rounding used by the hardware int64 → double conversion). -/
def rne (n : Nat) (e : Nat) : Nat :=
  if e = 0 then n
  else if n % 2 ^ e < 2 ^ e / 2 then n / 2 ^ e * 2 ^ e
  else if 2 ^ e / 2 < n % 2 ^ e then (n / 2 ^ e + 1) * 2 ^ e
  else if n / 2 ^ e % 2 = 0 then n / 2 ^ e * 2 ^ e
  else (n / 2 ^ e + 1) * 2 ^ e

/-- Rounding of a natural magnitude to the binary64-representable value
nearest to it (53 significant bits, ties to even). -/
def roundNat53 (n : Nat) : Nat := rne n (expFor n)

/-- The conversion int64_t → double of addon.cc lines 90-91 and 221
((double)raw.as.value_i64 and (double)n_int): round to nearest, ties to even.
Rounding an int64 to binary64 always yields an integral value, so the result
is typed Int. -/
def roundIntToDouble (x : Int) : Int :=
  if x < 0 then -(roundNat53 x.natAbs : Int) else (roundNat53 x.natAbs : Int)

/-! ## The tagged message type (crosslocale.h, struct crosslocale_message)

A List is modelled as the fixed-size buffer the addon allocates
(addon.cc line 243): each slot either holds a written message or was left
uninitialized (none), which is what from_js_value_impl does to the slot of a
child that encoded to CROSSLOCALE_MESSAGE_INVALID.  Likewise a Dict is the
pair of parallel buffers keys/values, a slot holding either a written
key-message pair or nothing. -/

inductive Msg where
  | nil
  | bool (b : Bool)
  | i64 (x : Int)
  | f64 (d : DoubleM)
  | str (s : String)
  | list (slots : List (Option Msg))
  | dict (entries : List (Option (String × Msg)))
  | invalid

/-! ## The host (JS) value type

The napi value kinds from_js_value_impl distinguishes.  The constructors
symbol, func, hostHandle and bigint model napi_symbol, napi_function,
napi_external and napi_bigint, the four unrepresentable kinds.  An object is
its ordered own-property list (a real JS object never holds a duplicate key;
objSet below maintains that). -/

inductive JsValue where
  | undefined
  | null
  | bool (b : Bool)
  | num (d : DoubleM)
  | str (s : String)
  | array (elems : List JsValue)
  | object (props : List (String × JsValue))
  | symbol
  | func
  | hostHandle
  | bigint

/-! ## JS object primitives -/

def isDigitChar (c : Char) : Bool := '0' ≤ c && c ≤ '9'

/-- Numeric value of a digit string. -/
def digitsVal (cs : List Char) : Nat :=
  cs.foldl (fun a c => a * 10 + (c.toNat - '0'.toNat)) 0

/-- Whether a property key is a canonical ECMAScript array index: a canonical
decimal numeral (no leading zero except "0" itself) below 2^32 - 1. -/
def isArrayIndexKey (s : String) : Bool :=
  match s.data with
  | [] => false
  | c :: rest =>
    (c :: rest).all isDigitChar &&
    (decide (c ≠ '0') || rest.isEmpty) &&
    decide (digitsVal (c :: rest) < 4294967295)

def insertByVal (x : String) : List String → List String
  | [] => [x]
  | y :: ys =>
    if digitsVal x.data ≤ digitsVal y.data then x :: y :: ys
    else y :: insertByVal x ys

/-- Insertion sort of array-index keys by their numeric value. -/
def sortIndexKeys : List String → List String
  | [] => []
  | x :: xs => insertByVal x (sortIndexKeys xs)

/-- Keep the first occurrence of each key (a real JS object cannot hold a
duplicate key; this makes the model total on arbitrary property lists). -/
def dedupKeys (seen : List String) : List String → List String
  | [] => []
  | k :: rest =>
    if k ∈ seen then dedupKeys seen rest else k :: dedupKeys (k :: seen) rest

/-- napi GetPropertyNames (addon.cc line 256): own enumerable property names,
array-index keys first in ascending numeric order, then the remaining keys in
insertion order (the ECMAScript own-property-key order). -/
def jsPropertyNames (props : List (String × JsValue)) : List String :=
  sortIndexKeys ((dedupKeys [] (props.map Prod.fst)).filter
      (fun k => isArrayIndexKey k)) ++
    (dedupKeys [] (props.map Prod.fst)).filter (fun k => !isArrayIndexKey k)

def lookupProp : List (String × JsValue) → String → Option JsValue
  | [], _ => none
  | (k, v) :: rest, key => if k = key then some v else lookupProp rest key

/-- js_object.Get(js_key) (addon.cc line 262): a missing property reads as
undefined. -/
def getProp (props : List (String × JsValue)) (k : String) : JsValue :=
  (lookupProp props k).getD .undefined

/-- js_object.Set(key, value): overwrite in place if the key exists, append
otherwise (ECMAScript ordinary set). -/
def objSet : List (String × JsValue) → String → JsValue → List (String × JsValue)
  | [], k, v => [(k, v)]
  | (k1, v1) :: rest, k, v =>
    if k1 = k then (k1, v) :: rest else (k1, v1) :: objSet rest k v

/-- Building a fresh JS object by consecutive Set calls (addon.cc dict loop,
lines 122-130). -/
def buildObject (ps : List (String × JsValue)) : List (String × JsValue) :=
  ps.foldl (fun acc kv => objSet acc kv.1 kv.2) []

/-! ## Encoding: from_js_value_impl -/

/-- The napi_number branch of from_js_value_impl (addon.cc lines 218-230):
represent the number as I64 when casting it to int64 (through uint64) and
back to double reproduces it exactly, as F64 otherwise.  A NaN or infinite
number always takes the F64 branch: (double)n_int is finite, so the equality
comparison against a non-finite n_float is false. -/
def classifyNum (d : DoubleM) : Msg :=
  match d with
  | .finite q =>
    let nInt := doubleToI64cast q
    if ((roundIntToDouble nInt : Int) : ℚ) = q then .i64 nInt else .f64 d
  | _ => .f64 d

/-- The element-level guard of the encoder loops (addon.cc lines 246 and
263): a child that encoded to Invalid is not written to its slot. -/
def encSlot (m : Msg) : Option Msg :=
  match m with
  | .invalid => none
  | m1 => some m1

/-- Like encSlot for a dict entry: when the value is Invalid neither the key
nor the value buffer slot is written. -/
def encEntry (k : String) (m : Msg) : Option (String × Msg) :=
  match m with
  | .invalid => none
  | m1 => some (k, m1)

theorem getProp_sizeOf_le (props : List (String × JsValue)) (k : String) :
    sizeOf (getProp props k) ≤ sizeOf props := by
  induction props with
  | nil => simp [getProp, lookupProp]
  | cons hd tl ih =>
    obtain ⟨k1, v1⟩ := hd
    simp only [getProp, lookupProp] at *
    by_cases h : k1 = k
    · simp [h]
      omega
    · simp [h]
      omega

mutual

/-- BackendMessageFromJs::from_js_value_impl (addon.cc lines 200-286). -/
def fromJs : JsValue → Msg
  | .undefined => .nil
  | .null => .nil
  | .bool b => .bool b
  | .num d => classifyNum d
  | .str s => .str s
  | .array elems => .list (fromJsSlots elems)
  | .object props => .dict (fromJsProps (jsPropertyNames props) props)
  | .symbol => .invalid
  | .func => .invalid
  | .hostHandle => .invalid
  | .bigint => .invalid
termination_by v => (sizeOf v, 0)

/-- The array loop of from_js_value_impl (addon.cc lines 240-253): the output
buffer keeps the input length; the slot of a child that encodes to Invalid is
skipped, leaving it uninitialized (none). -/
def fromJsSlots : List JsValue → List (Option Msg)
  | [] => []
  | e :: rest => encSlot (fromJs e) :: fromJsSlots rest
termination_by l => (sizeOf l, 0)

/-- The object loop of from_js_value_impl (addon.cc lines 255-273): one slot
per property name; the slot of a property whose value encodes to Invalid is
skipped, leaving both the key and the value buffers uninitialized (none). -/
def fromJsProps (keys : List String) (props : List (String × JsValue)) :
    List (Option (String × Msg)) :=
  match keys with
  | [] => []
  | k :: ks =>
    encEntry k (fromJs (getProp props k)) :: fromJsProps ks props
termination_by (sizeOf props, keys.length + 1)
decreasing_by
  · have h := getProp_sizeOf_le props y
    rcases Nat.lt_or_ge (sizeOf (getProp props y)) (sizeOf props) with hlt | hge
    · exact Prod.Lex.left _ _ hlt
    · have heq : sizeOf (getProp props y) = sizeOf props := le_antisymm h hge
      rw [heq]
      exact Prod.Lex.right _ (by simp)
  · exact Prod.Lex.right _ (by simp [List.length_cons])

end

/-! ## Decoding: to_js_value_impl -/

mutual

/-- BackendMessage::to_js_value_impl (addon.cc lines 84-138).  Converting an
Invalid message throws std::logic_error (line 135), and reading an
uninitialized (none) slot is undefined; both are modelled as none. -/
def toJs : Msg → Option JsValue
  | .nil => some .null
  | .bool b => some (.bool b)
  | .i64 x => some (.num (.finite ((roundIntToDouble x : Int) : ℚ)))
  | .f64 d => some (.num d)
  | .str s => some (.str s)
  | .list slots => (toJsSlots slots).map .array
  | .dict entries => (toJsEntries entries).map (fun ps => .object (buildObject ps))
  | .invalid => none
termination_by m => sizeOf m

def toJsSlots : List (Option Msg) → Option (List JsValue)
  | [] => some []
  | none :: _ => none
  | some m :: rest =>
    match toJs m, toJsSlots rest with
    | some v, some vs => some (v :: vs)
    | _, _ => none
termination_by l => sizeOf l

def toJsEntries : List (Option (String × Msg)) → Option (List (String × JsValue))
  | [] => some []
  | none :: _ => none
  | some (k, m) :: rest =>
    match toJs m, toJsEntries rest with
    | some v, some vs => some ((k, v) :: vs)
    | _, _ => none
termination_by l => sizeOf l

end

/-- BackendMessage::to_js_value (addon.cc lines 69-72): the nullptr result of
the impl is replaced by undefined. -/
def msgToJsValue (m : Msg) : JsValue := (toJs m).getD .undefined

/-- Round trip of a message through the host representation: decode with
to_js_value_impl, re-encode with from_js_value_impl. -/
def roundtripMsg (m : Msg) : Option Msg := (toJs m).map fromJs

/-- Round trip of a host value through the message representation: encode
with from_js_value_impl, decode with to_js_value_impl. -/
def roundtripJs (v : JsValue) : Option JsValue := toJs (fromJs v)

/-! ## Node error objects (FfiBackendException::to_node_error) -/

structure NodeError where
  message : String
  errno : Nat
  code : Option String
  deriving DecidableEq, Repr

/-- FfiBackendException::to_node_error (addon.cc lines 51-58): the message is
the description lookup (what(), line 46), the "errno" property is the numeric
code, and the "code" property is the symbolic identifier when the id lookup
is non-null (lines 54-56). -/
def toNodeError (c : CrosslocaleResult) : NodeError :=
  ⟨crosslocale_error_description c, c.toCode, crosslocale_error_id_str c⟩

/-! ## The send path (NodeBackend::send_message) -/

/-- Modelled from the spec: the Rust implementation of
crosslocale_backend_send_message is not under src/ (crosslocale.h only
declares it).  Per the spec, "at the top level, encoding an Invalid (or a
host value that maps to it) is an error (signals unrepresentable value), not
a silent drop"; the failure surfaces through the C ABI as the non-OK result
code of a faulted worker call.  A representable message is accepted (the
channel is assumed open here; channel state is outside this claim). -/
def ffiSendMessage (m : Msg) : CrosslocaleResult :=
  match m with
  | .invalid => .errGenericRustPanic
  | _ => .ok

/-- NodeBackend::send_message (addon.cc lines 424-438): encode the JS
argument with from_js_value_impl, hand the message to the C ABI, and
translate a non-OK result into a thrown node error (line 434). -/
def nodeSendMessage (v : JsValue) : Except NodeError Unit :=
  match ffiSendMessage (fromJs v) with
  | .ok => .ok ()
  | c => .error (toNodeError c)

/-! ## Module loading (Init, addon.cc lines 499-517) -/

inductive ExportEntry where
  | numConst (n : Nat)
  | strConst (s : String)
  | fnExport
  | backendClass
  deriving DecidableEq, Repr

/-- The bridge version this adapter supports (addon.cc line 8). -/
def SUPPORTED_FFI_BRIDGE_VERSION : Nat := 3

/-- Init (addon.cc lines 499-517): when the library's bridge version constant
differs from the supported one, an error is thrown before any export is
installed; otherwise the version constants, the logging hook and the Backend
constructor are installed on the exports object. -/
def addonInit (bridgeVersion : Nat) (versionStr niceVersionStr : String)
    (protocolVersion : Nat) : Except String (List (String × ExportEntry)) :=
  if bridgeVersion ≠ SUPPORTED_FFI_BRIDGE_VERSION then
    .error "Incompatible FFI bridge version! Check if a correct crosslocale dynamic library is installed!"
  else
    .ok [("FFI_BRIDGE_VERSION", .numConst bridgeVersion),
         ("VERSION", .strConst versionStr),
         ("NICE_VERSION", .strConst niceVersionStr),
         ("PROTOCOL_VERSION", .numConst protocolVersion),
         ("init_logging", .fnExport),
         ("Backend", .backendClass)]

/-! ## The asynchronous receive path (NodeRecvMessageWorker, NodeBackend::recv_message) -/

inductive CallbackArg where
  | null
  | value (v : JsValue)
  | errObj (e : NodeError)

/-- NodeRecvMessageWorker::Execute and GetResult (addon.cc lines 365-382):
a successful receive invokes the callback with (null, decoded value); a
failed receive invokes it with the single translated error object. -/
def recvWorkerGetResult (outcome : Except CrosslocaleResult Msg) :
    List CallbackArg :=
  match outcome with
  | .ok m => [.null, .value (msgToJsValue m)]
  | .error c => [.errObj (toNodeError c)]

/-- NodeBackend::recv_message (addon.cc lines 440-452): the call queues a
NodeRecvMessageWorker and returns undefined immediately; the queued worker
later runs the blocking receive off the calling thread (the Napi AsyncWorker
contract) and delivers the callback arguments recvWorkerGetResult computes
from the receive outcome. -/
def nodeRecvMessageAsync :
    JsValue × (Except CrosslocaleResult Msg → List CallbackArg) :=
  (.undefined, recvWorkerGetResult)

/-! ## Conditions under which a message round trip is the identity -/

/-- Keys of the written entries of a dict. -/
def entryKeyList : List (Option (String × Msg)) → List String
  | [] => []
  | none :: rest => entryKeyList rest
  | some (k, _) :: rest => k :: entryKeyList rest

mutual

/-- Sufficient conditions for a message tree to survive the round trip
message → JS value → message unchanged: no Invalid node and no uninitialized
slot anywhere; every I64 payload is in int64 range and exactly representable
as a double; every F64 payload is not reclassified as I64 by the encoder;
every Dict has pairwise distinct keys none of which is an array-index
string. -/
def msgPreserved : Msg → Bool
  | .nil => true
  | .bool _ => true
  | .i64 x =>
    decide (-(2 ^ 63) ≤ x) && decide (x < 2 ^ 63) &&
      decide (roundIntToDouble x = x)
  | .f64 d =>
    (match classifyNum d with
     | .i64 _ => false
     | _ => true)
  | .str _ => true
  | .list slots => slotsPreserved slots
  | .dict entries =>
    entriesPreserved entries &&
      decide (entryKeyList entries).Nodup &&
      (entryKeyList entries).all (fun k => !isArrayIndexKey k)
  | .invalid => false
termination_by m => sizeOf m

def slotsPreserved : List (Option Msg) → Bool
  | [] => true
  | none :: _ => false
  | some m :: rest => msgPreserved m && slotsPreserved rest
termination_by l => sizeOf l

def entriesPreserved : List (Option (String × Msg)) → Bool
  | [] => true
  | none :: _ => false
  | some (_, m) :: rest => msgPreserved m && entriesPreserved rest
termination_by l => sizeOf l

end

/-! ## The numeric-classification criterion as the spec words it -/

/-- The criterion of the spec sentence "a host number is represented as
Int64 if and only if converting it to a 64-bit integer and back to a double
yields the identical double value": the 64-bit integer conversion is the one
the code performs (addon.cc line 220) and the conversion back is the int64 →
double rounding (line 221). -/
def i64RoundTripExact (d : DoubleM) : Prop :=
  match d with
  | .finite q => ((roundIntToDouble (doubleToI64cast q) : Int) : ℚ) = q
  | _ => False

instance (d : DoubleM) : Decidable (i64RoundTripExact d) := by
  unfold i64RoundTripExact
  cases d <;> infer_instance

/-! ## Claim C5 -/

/-- C5 counterexample: the result enumeration of crosslocale.h has exactly
the four members OK, GENERIC_RUST_PANIC, BACKEND_DISCONNECTED and
SPAWN_THREAD_FAILED, and no member carries the numeric value 3; in
particular NON_UTF8_STRING is not a member of the enumeration exposed at the
boundary, contradicting the claim that all five codes are members. -/
theorem c5_counterexample :
    (∀ c : CrosslocaleResult, c.toCode ≠ 3) ∧
    (∀ c : CrosslocaleResult,
      c = .ok ∨ c = .errGenericRustPanic ∨ c = .errBackendDisconnected ∨
        c = .errSpawnThreadFailed) := by
  constructor <;> intro c <;> cases c <;> simp [CrosslocaleResult.toCode]

/-- C5 (amended): the error taxonomy is the closed four-member set
OK = 0, GENERIC_RUST_PANIC = 1, BACKEND_DISCONNECTED = 2,
SPAWN_THREAD_FAILED = 4, with pairwise distinct fixed numeric values; the
value 3 of the retired NON_UTF8_STRING code stays unused, consistent with
the rule that shipped codes are never renumbered. -/
theorem c5_error_taxonomy :
    CrosslocaleResult.toCode .ok = 0 ∧
    CrosslocaleResult.toCode .errGenericRustPanic = 1 ∧
    CrosslocaleResult.toCode .errBackendDisconnected = 2 ∧
    CrosslocaleResult.toCode .errSpawnThreadFailed = 4 ∧
    (∀ a b : CrosslocaleResult, a.toCode = b.toCode → a = b) ∧
    (∀ c : CrosslocaleResult,
      c = .ok ∨ c = .errGenericRustPanic ∨ c = .errBackendDisconnected ∨
        c = .errSpawnThreadFailed) := by
  refine ⟨rfl, rfl, rfl, rfl, ?_, ?_⟩
  · intro a b
    cases a <;> cases b <;> simp [CrosslocaleResult.toCode]
  · intro c
    cases c <;> simp

/-- C5 witness: the amended taxonomy theorem applied at concrete codes. -/
theorem c5_taxonomy_witness :
    CrosslocaleResult.errSpawnThreadFailed = .errSpawnThreadFailed :=
  c5_error_taxonomy.2.2.2.2.1 .errSpawnThreadFailed .errSpawnThreadFailed rfl

/-! ## Claim C6 -/

/-- C6: when the library's bridge version constant differs from the
supported version 3, Init throws before installing any export, so the
Backend constructor is never exposed and no handle can be constructed; when
the versions match, the exports hold the Backend constructor and the version
constants. -/
theorem c6_version_gate :
    (∀ (v : Nat) (s1 s2 : String) (p : Nat), v ≠ SUPPORTED_FFI_BRIDGE_VERSION →
      addonInit v s1 s2 p =
        .error "Incompatible FFI bridge version! Check if a correct crosslocale dynamic library is installed!") ∧
    (∀ (v : Nat) (s1 s2 : String) (p : Nat) exports,
      addonInit v s1 s2 p = .ok exports →
      v = SUPPORTED_FFI_BRIDGE_VERSION ∧
      ("Backend", ExportEntry.backendClass) ∈ exports ∧
      ("FFI_BRIDGE_VERSION", ExportEntry.numConst v) ∈ exports ∧
      ("VERSION", ExportEntry.strConst s1) ∈ exports ∧
      ("NICE_VERSION", ExportEntry.strConst s2) ∈ exports ∧
      ("PROTOCOL_VERSION", ExportEntry.numConst p) ∈ exports) := by
  constructor
  · intro v s1 s2 p hv
    simp [addonInit, hv]
  · intro v s1 s2 p exports h
    unfold addonInit at h
    split_ifs at h with hv
    · injection h with h
      subst h
      refine ⟨by omega, ?_, ?_, ?_, ?_, ?_⟩ <;> simp

/-- C6 witness: loading with bridge version 2 fails before any export; with
version 3 the Backend class is among the exports. -/
theorem c6_version_gate_witness :
    addonInit 2 "0.1.0" "v0.1.0" 0 =
      .error "Incompatible FFI bridge version! Check if a correct crosslocale dynamic library is installed!" ∧
    ("Backend", ExportEntry.backendClass) ∈
      [("FFI_BRIDGE_VERSION", ExportEntry.numConst 3),
       ("VERSION", ExportEntry.strConst "0.1.0"),
       ("NICE_VERSION", ExportEntry.strConst "v0.1.0"),
       ("PROTOCOL_VERSION", ExportEntry.numConst 0),
       ("init_logging", ExportEntry.fnExport),
       ("Backend", ExportEntry.backendClass)] :=
  ⟨c6_version_gate.1 2 "0.1.0" "v0.1.0" 0 (by decide),
   (c6_version_gate.2 3 "0.1.0" "v0.1.0" 0 _ rfl).2.1⟩

/-! ## Claim C8 -/

/-- C8: for every non-OK result code the node error carries the description
lookup as its message, the numeric code value in the errno property and the
symbolic identifier in the code property, all pure lookups on the code. -/
theorem c8_error_object_fields :
    (∀ c : CrosslocaleResult, c ≠ .ok →
      toNodeError c =
        ⟨crosslocale_error_description c, c.toCode, some c.idString⟩) ∧
    (toNodeError .errGenericRustPanic).errno = 1 ∧
    (toNodeError .errBackendDisconnected).errno = 2 ∧
    (toNodeError .errSpawnThreadFailed).errno = 4 ∧
    (toNodeError .errBackendDisconnected).code =
      some "CROSSLOCALE_ERR_BACKEND_DISCONNECTED" ∧
    (toNodeError .errBackendDisconnected).message =
      crosslocale_error_description .errBackendDisconnected := by
  exact ⟨fun c _ => rfl, rfl, rfl, rfl, rfl, rfl⟩

/-- C8 witness: the error-field theorem applied at BACKEND_DISCONNECTED. -/
theorem c8_error_object_fields_witness :
    toNodeError .errBackendDisconnected =
      ⟨crosslocale_error_description .errBackendDisconnected, 2,
        some "CROSSLOCALE_ERR_BACKEND_DISCONNECTED"⟩ :=
  c8_error_object_fields.1 .errBackendDisconnected (by decide)

/-! ## Claim C7 -/

/-- C7: the asynchronous receive returns undefined immediately and defers
the blocking receive to the queued worker; the worker's callback arguments
have exactly one of two shapes, (null, decoded value) on success or the
single translated error on failure (the two shapes differ already in
argument count). -/
theorem c7_recv_async_callback_shapes :
    nodeRecvMessageAsync.1 = JsValue.undefined ∧
    nodeRecvMessageAsync.2 = recvWorkerGetResult ∧
    (∀ m : Msg, recvWorkerGetResult (.ok m) = [.null, .value (msgToJsValue m)]) ∧
    (∀ c : CrosslocaleResult,
      recvWorkerGetResult (.error c) = [.errObj (toNodeError c)]) ∧
    (∀ o : Except CrosslocaleResult Msg,
      ((∃ v, recvWorkerGetResult o = [.null, .value v]) ∧
        (recvWorkerGetResult o).length = 2) ∨
      ((∃ c, recvWorkerGetResult o = [.errObj (toNodeError c)]) ∧
        (recvWorkerGetResult o).length = 1)) := by
  refine ⟨rfl, rfl, fun m => rfl, fun c => rfl, ?_⟩
  intro o
  cases o with
  | ok m => exact Or.inl ⟨⟨msgToJsValue m, rfl⟩, rfl⟩
  | error c => exact Or.inr ⟨⟨c, rfl⟩, rfl⟩

/-! ## Claim C4 -/

/-- C4: the four unrepresentable host value kinds encode to Invalid, and
sending any host value that encodes to Invalid at the top level reports the
translated error to the caller instead of transmitting or dropping the
message silently. -/
theorem c4_top_level_invalid_send_fails :
    fromJs .symbol = .invalid ∧ fromJs .func = .invalid ∧
    fromJs .hostHandle = .invalid ∧ fromJs .bigint = .invalid ∧
    (∀ v : JsValue, fromJs v = .invalid →
      nodeSendMessage v = .error (toNodeError .errGenericRustPanic)) ∧
    (∀ v : JsValue, nodeSendMessage v = .ok () → fromJs v ≠ .invalid) := by
  refine ⟨by simp [fromJs], by simp [fromJs], by simp [fromJs], by simp [fromJs], ?_, ?_⟩
  · intro v h
    simp [nodeSendMessage, h, ffiSendMessage]
  · intro v h hiv
    simp [nodeSendMessage, hiv, ffiSendMessage] at h

/-- C4 witness: sending a JS symbol reports the translated error. -/
theorem c4_send_symbol_witness :
    nodeSendMessage .symbol = .error (toNodeError .errGenericRustPanic) :=
  c4_top_level_invalid_send_fails.2.2.2.2.1 .symbol (by simp [fromJs])

/-! ## Claim C1 -/

/-- C1: evaluation of from_js_value_impl at an array and an object with one
unrepresentable child among representable siblings.  The encoded List keeps
the input length 2 and leaves the slot of the Invalid child uninitialized
(none) instead of omitting it, and likewise for the Dict; the result differs
from the one-entry List/Dict the claim (and the spec's drop-not-propagate
sentence) describes. -/
theorem c1_invalid_child_slot_left_unwritten :
    fromJs (.array [.bool true, .symbol]) = .list [some (.bool true), none] ∧
    fromJs (.object [("a", .num (.finite 1)), ("b", .symbol)]) =
      .dict [some ("a", .i64 1), none] ∧
    Msg.list [some (.bool true), none] ≠ .list [some (.bool true)] ∧
    Msg.dict [some ("a", .i64 1), none] ≠ .dict [some ("a", .i64 1)] := by
  refine ⟨?_, ?_, by simp, by simp⟩
  · simp [fromJs, fromJsSlots, encSlot]
  · norm_num [fromJs, fromJsProps, jsPropertyNames, dedupKeys, sortIndexKeys,
      insertByVal, getProp, lookupProp, classifyNum, doubleToI64cast, ratTrunc,
      castU64, i64OfU64, roundIntToDouble, roundNat53, rne, expFor, List.filter,
      encEntry, show isArrayIndexKey "a" = false from by decide,
      show isArrayIndexKey "b" = false from by decide]
    simp [fromJs, encEntry]

/-! ## Claim C9 -/

/-- C9: from_js_value_impl maps both JS undefined and JS null to Nil
(addon.cc lines 204-209), while to_js_value_impl maps Nil to JS null only
(lines 86-87); hence the round trip of undefined at the host boundary yields
null, and the undefined/null distinction is not preserved. -/
theorem c9_undef_null_collapse :
    fromJs .undefined = .nil ∧ fromJs .null = .nil ∧
    toJs .nil = some .null ∧
    roundtripJs .undefined = some .null ∧
    roundtripJs .undefined ≠ some .undefined := by
  refine ⟨?_, ?_, ?_, ?_, ?_⟩ <;> simp [fromJs, toJs, roundtripJs]

/-! ## Claim C3 -/

theorem ratTrunc_intCast (x : Int) : ratTrunc ((x : Int) : ℚ) = x := by
  simp only [ratTrunc, Rat.num_intCast, Rat.den_intCast]
  simp [Int.tdiv_one x]

theorem i64OfU64_castU64 (x : Int) (h1 : -(2 ^ 63) ≤ x) (h2 : x < 2 ^ 63) :
    i64OfU64 (castU64 x) = x := by
  unfold i64OfU64 castU64
  split_ifs with h <;> omega

theorem doubleToI64cast_intCast (x : Int) (h1 : -(2 ^ 63) ≤ x)
    (h2 : x < 2 ^ 63) : doubleToI64cast ((x : Int) : ℚ) = x := by
  rw [doubleToI64cast, ratTrunc_intCast, i64OfU64_castU64 x h1 h2]

/-- An int64 in range whose double rounding is exact encodes back to itself
as I64. -/
theorem classifyNum_intCast (x : Int) (h1 : -(2 ^ 63) ≤ x) (h2 : x < 2 ^ 63)
    (h3 : roundIntToDouble x = x) :
    classifyNum (.finite ((x : Int) : ℚ)) = .i64 x := by
  simp only [classifyNum, doubleToI64cast_intCast x h1 h2, h3]
  simp

/-- A number with a nontrivial denominator is never reclassified as an
integer. -/
theorem classifyNum_fracDen (q : ℚ) (hq : q.den ≠ 1) :
    classifyNum (.finite q) = .f64 (.finite q) := by
  simp only [classifyNum]
  rw [if_neg]
  intro h
  exact hq (h ▸ Rat.den_intCast _)

/-- C3: a host number encodes to I64 exactly when converting it to a 64-bit
integer and back to a double reproduces it; otherwise it encodes to F64
carrying the number unchanged.  In particular 3.0 encodes to I64(3), 3.5 to
F64(3.5), the largest integral double below 2^53 to I64, and no number with
a fractional part ever encodes to I64. -/
theorem c3_numeric_classification :
    (∀ d : DoubleM, (∃ k, fromJs (.num d) = Msg.i64 k) ↔ i64RoundTripExact d) ∧
    (∀ d : DoubleM, ¬ i64RoundTripExact d → fromJs (.num d) = .f64 d) ∧
    fromJs (.num (.finite 3)) = .i64 3 ∧
    fromJs (.num (.finite (7 / 2))) = .f64 (.finite (7 / 2)) ∧
    fromJs (.num (.finite (2 ^ 53 - 1))) = .i64 (2 ^ 53 - 1) ∧
    (∀ q : ℚ, q.den ≠ 1 → ∀ k : Int, fromJs (.num (.finite q)) ≠ .i64 k) := by
  have heq : ∀ d, fromJs (.num d) = classifyNum d := fun d => by simp [fromJs]
  refine ⟨?_, ?_, ?_, ?_, ?_, ?_⟩
  · intro d
    rw [heq]
    cases d with
    | finite q =>
      simp only [classifyNum, i64RoundTripExact]
      by_cases h : ((roundIntToDouble (doubleToI64cast q) : Int) : ℚ) = q
      · simp [h]
      · simp [h]
    | nan => simp [classifyNum, i64RoundTripExact]
    | posInf => simp [classifyNum, i64RoundTripExact]
    | negInf => simp [classifyNum, i64RoundTripExact]
  · intro d hd
    rw [heq]
    cases d with
    | finite q =>
      simp only [i64RoundTripExact] at hd
      simp [classifyNum, hd]
    | nan => simp [classifyNum]
    | posInf => simp [classifyNum]
    | negInf => simp [classifyNum]
  · rw [heq, show (3 : ℚ) = ((3 : Int) : ℚ) from by norm_num]
    exact classifyNum_intCast 3 (by decide) (by decide) (by decide)
  · rw [heq]
    exact classifyNum_fracDen (7 / 2) (by norm_num)
  · rw [heq, show (2 ^ 53 - 1 : ℚ) = ((2 ^ 53 - 1 : Int) : ℚ) from by norm_num]
    exact classifyNum_intCast (2 ^ 53 - 1) (by decide) (by decide) (by decide)
  · intro q hq k
    rw [heq]
    simp only [classifyNum]
    by_cases h : ((roundIntToDouble (doubleToI64cast q) : Int) : ℚ) = q
    · exfalso
      apply hq
      rw [← h]
      exact Rat.den_intCast _
    · simp [h]

/-- C3 witness: the classification theorem applied at the number 1/2, whose
denominator is not 1, so it never encodes to I64. -/
theorem c3_numeric_classification_witness :
    fromJs (.num (.finite (1 / 2))) ≠ .i64 0 :=
  c3_numeric_classification.2.2.2.2.2 (1 / 2) (by norm_num) 0

/-! ## Claim C10: the rounding is to the nearest representable value -/

theorem rne_add_eval (e m r : Nat) (he : e ≠ 0) (hr : r < 2 ^ e)
    (hm : 2 ^ e ∣ m) :
    rne (m + r) e =
      if r < 2 ^ e / 2 then m
      else if 2 ^ e / 2 < r then m + 2 ^ e
      else if m / 2 ^ e % 2 = 0 then m else m + 2 ^ e := by
  obtain ⟨q, rfl⟩ := hm
  have hu : 0 < 2 ^ e := pow_pos (by norm_num) e
  have hdiv : (2 ^ e * q + r) / 2 ^ e = q := by
    rw [Nat.mul_add_div hu, Nat.div_eq_of_lt hr]
    omega
  have hmod2 : (2 ^ e * q + r) % 2 ^ e = r := by
    rw [Nat.mul_add_mod, Nat.mod_eq_of_lt hr]
  have hq : 2 ^ e * q / 2 ^ e = q := Nat.mul_div_cancel_left _ hu
  unfold rne
  rw [if_neg he, hdiv, hmod2, hq,
    show q * 2 ^ e = 2 ^ e * q from mul_comm _ _,
    show (q + 1) * 2 ^ e = 2 ^ e * q + 2 ^ e from by ring]

/-- rne moves its input by at most half a granule (the granule is even, so
the tie sits exactly in the middle). -/
theorem rne_add_dist (e m r : Nat) (he : e ≠ 0) (hr : r < 2 ^ e)
    (hm : 2 ^ e ∣ m) : 2 * Nat.dist (rne (m + r) e) (m + r) ≤ 2 ^ e := by
  rw [rne_add_eval e m r he hr hm]
  have hev : (2 : ℕ) ∣ 2 ^ e := dvd_pow_self 2 he
  generalize hU : (2 : ℕ) ^ e = u at hr hev ⊢
  split_ifs <;> simp only [Nat.dist] <;> omega

/-- rne picks a multiple of the granule nearest to its input. -/
theorem rne_add_nearest (e m r j : Nat) (he : e ≠ 0) (hr : r < 2 ^ e)
    (hm : 2 ^ e ∣ m) (hj : 2 ^ e ∣ j) :
    Nat.dist (rne (m + r) e) (m + r) ≤ Nat.dist j (m + r) := by
  rw [rne_add_eval e m r he hr hm]
  have hev : (2 : ℕ) ∣ 2 ^ e := dvd_pow_self 2 he
  rcases le_or_lt j m with hjm | hjm
  · generalize hU : (2 : ℕ) ^ e = u at hr hev ⊢
    split_ifs <;> simp only [Nat.dist] <;> omega
  · have hstep : m + 2 ^ e ≤ j := by
      have hd : 2 ^ e ∣ j - m := Nat.dvd_sub' hj hm
      have := Nat.le_of_dvd (by omega) hd
      omega
    generalize hU : (2 : ℕ) ^ e = u at hr hev hstep ⊢
    split_ifs <;> simp only [Nat.dist] <;> omega

/-- rne picks a multiple of the granule. -/
theorem rne_dvd (n e : Nat) : 2 ^ e ∣ rne n e := by
  unfold rne
  split_ifs with h0 h1 h2 h3
  · simp [h0]
  · exact dvd_mul_left _ _
  · exact dvd_mul_left _ _
  · exact dvd_mul_left _ _
  · exact dvd_mul_left _ _

theorem rne_dist_le (n e : Nat) (he : e ≠ 0) :
    2 * Nat.dist (rne n e) n ≤ 2 ^ e := by
  have hd := Nat.div_add_mod n (2 ^ e)
  have hr : n % 2 ^ e < 2 ^ e := Nat.mod_lt n (pow_pos (by norm_num) e)
  have h := rne_add_dist e (2 ^ e * (n / 2 ^ e)) (n % 2 ^ e) he hr
    (dvd_mul_right _ _)
  rw [hd] at h
  exact h

theorem rne_nearest_mult (n e j : Nat) (he : e ≠ 0) (hj : 2 ^ e ∣ j) :
    Nat.dist (rne n e) n ≤ Nat.dist j n := by
  have hd := Nat.div_add_mod n (2 ^ e)
  have hr : n % 2 ^ e < 2 ^ e := Nat.mod_lt n (pow_pos (by norm_num) e)
  have h := rne_add_nearest e (2 ^ e * (n / 2 ^ e)) (n % 2 ^ e) j he hr
    (dvd_mul_right _ _) hj
  rw [hd] at h
  exact h

theorem expFor_zero (n : Nat) (h : n < 2 ^ 53) : expFor n = 0 := by
  unfold expFor
  rw [if_pos h]

theorem roundNat53_small (n : Nat) (h : n < 2 ^ 53) : roundNat53 n = n := by
  unfold roundNat53
  rw [expFor_zero n h]
  unfold rne
  simp

set_option maxHeartbeats 1600000 in
/-- For a magnitude in the int64 range, expFor returns the exponent of the
granule of the binade the magnitude falls in. -/
theorem expFor_spec (n : Nat) (h1 : 2 ^ 53 ≤ n) (h2 : n < 2 ^ 64) :
    1 ≤ expFor n ∧ expFor n ≤ 11 ∧
      2 ^ (52 + expFor n) ≤ n ∧ n < 2 ^ (53 + expFor n) := by
  unfold expFor
  split_ifs <;>
    refine ⟨by omega, by omega, by norm_num; omega, by norm_num; omega⟩

theorem roundNat53_dvd (n : Nat) : 2 ^ (expFor n) ∣ roundNat53 n :=
  rne_dvd n (expFor n)

theorem roundNat53_nearest_mult (n j : Nat) (he : expFor n ≠ 0)
    (hj : 2 ^ (expFor n) ∣ j) :
    Nat.dist (roundNat53 n) n ≤ Nat.dist j n := by
  unfold roundNat53
  exact rne_nearest_mult n (expFor n) j he hj

/-- Among the fixed points of roundNat53 (the magnitudes binary64 represents
exactly), roundNat53 picks one nearest to its input. -/
theorem roundNat53_nearest (n k : Nat) (hn : n < 2 ^ 64) (hk : k < 2 ^ 64)
    (hfix : roundNat53 k = k) : Nat.dist (roundNat53 n) n ≤ Nat.dist k n := by
  by_cases h0 : n < 2 ^ 53
  · simp [roundNat53_small n h0, Nat.dist_self]
  · push_neg at h0
    obtain ⟨he1, he11, hlo, hhi⟩ := expFor_spec n h0 hn
    rcases le_or_lt (2 ^ (52 + expFor n)) k with hkbig | hksmall
    · -- k sits at or above the binade of n, so it is a multiple of the granule
      have hk53 : 2 ^ 53 ≤ k := by
        have hp : (2 : Nat) ^ 53 ≤ 2 ^ (52 + expFor n) :=
          Nat.pow_le_pow_right (by norm_num) (by omega)
        omega
      obtain ⟨hk1, hk11, hklo, hkhi⟩ := expFor_spec k hk53 hk
      have heek : expFor n ≤ expFor k := by
        by_contra hc
        push_neg at hc
        have hle : (53 + expFor k) ≤ 52 + expFor n := by omega
        have := Nat.pow_le_pow_right (show 1 ≤ 2 by norm_num) hle
        omega
      have hdvd : 2 ^ (expFor n) ∣ k := by
        have hdk := roundNat53_dvd k
        rw [hfix] at hdk
        exact dvd_trans (pow_dvd_pow 2 heek) hdk
      exact roundNat53_nearest_mult n k (by omega) hdvd
    · rcases le_or_lt (2 ^ (expFor n) / 2) (Nat.dist k n) with hfar | hnear
      · -- the rounding error is at most half a granule
        have hdist := rne_dist_le n (expFor n) (by omega)
        unfold roundNat53
        omega
      · exfalso
        by_cases hE : expFor n = 1
        · rw [hE] at hlo hksmall
          simp only [Nat.dist, hE] at hnear
          norm_num at hnear hlo hksmall
          omega
        · have he2 : 2 ≤ expFor n := by omega
          have hsp : 2 ^ (52 + expFor n) = 2 * 2 ^ (51 + expFor n) := by
            rw [show 52 + expFor n = (51 + expFor n) + 1 from by omega, pow_succ]
            ring
          have hgap : 2 ^ (expFor n) ≤ 2 ^ (51 + expFor n) :=
            Nat.pow_le_pow_right (by norm_num) (by omega)
          have hk51 : 2 ^ (51 + expFor n) ≤ k := by
            simp only [Nat.dist] at hnear
            omega
          have hk53 : 2 ^ 53 ≤ k := by
            have := Nat.pow_le_pow_right (show 1 ≤ 2 by norm_num)
              (show 53 ≤ 51 + expFor n by omega)
            omega
          obtain ⟨hk1, hk11, hklo, hkhi⟩ := expFor_spec k hk53 hk
          have hkge : expFor n - 1 ≤ expFor k := by
            by_contra hc
            push_neg at hc
            have hle : (53 + expFor k) ≤ 51 + expFor n := by omega
            have := Nat.pow_le_pow_right (show 1 ≤ 2 by norm_num) hle
            omega
          have hdvd : 2 ^ (expFor n - 1) ∣ k := by
            have hdk := roundNat53_dvd k
            rw [hfix] at hdk
            exact dvd_trans (pow_dvd_pow 2 hkge) hdk
          have hdvdN : 2 ^ (expFor n - 1) ∣ 2 ^ (52 + expFor n) :=
            pow_dvd_pow 2 (by omega)
          have hpos : 0 < 2 ^ (52 + expFor n) - k := by omega
          have hge : 2 ^ (expFor n - 1) ≤ 2 ^ (52 + expFor n) - k :=
            Nat.le_of_dvd hpos (Nat.dvd_sub' hdvdN hdvd)
          have hpo : 2 ^ (expFor n) = 2 * 2 ^ (expFor n - 1) := by
            obtain ⟨d, hd⟩ : ∃ d, expFor n = d + 1 := ⟨expFor n - 1, by omega⟩
            rw [hd, Nat.add_sub_cancel, pow_succ]
            ring
          simp only [Nat.dist] at hnear
          omega

theorem roundNat53_dist_self_le (n : Nat) (hn : n < 2 ^ 64) :
    Nat.dist (roundNat53 n) n ≤ n := by
  by_cases h0 : n < 2 ^ 53
  · simp [roundNat53_small n h0, Nat.dist_self]
  · push_neg at h0
    obtain ⟨he1, he11, hlo, hhi⟩ := expFor_spec n h0 hn
    have hdist := rne_dist_le n (expFor n) (by omega)
    have h11 : (2 : Nat) ^ (expFor n) ≤ 2 ^ 11 :=
      Nat.pow_le_pow_right (by norm_num) he11
    have h53 : (2 : Nat) ^ 11 ≤ 2 ^ 53 := by norm_num
    unfold roundNat53 at *
    omega

theorem roundIntToDouble_natAbs_fix (m : Int)
    (hfix : roundIntToDouble m = m) : roundNat53 m.natAbs = m.natAbs := by
  unfold roundIntToDouble at hfix
  split_ifs at hfix with hneg <;> omega

/-- The int64 → double conversion rounds to a nearest representable value:
no other fixed point of the rounding lies closer to the input. -/
theorem roundIntToDouble_nearest (x m : Int) (hx : x.natAbs < 2 ^ 64)
    (hm : m.natAbs < 2 ^ 64) (hfix : roundIntToDouble m = m) :
    (roundIntToDouble x - x).natAbs ≤ (m - x).natAbs := by
  have hfixn := roundIntToDouble_natAbs_fix m hfix
  have hnear := roundNat53_nearest x.natAbs m.natAbs hx hm hfixn
  have hself := roundNat53_dist_self_le x.natAbs hx
  unfold roundIntToDouble
  split_ifs with hneg <;> simp only [Nat.dist] at hnear hself <;> omega

/-! ## Claim C10 -/

/-- C10: decoding I64(x) yields the JS number obtained by rounding x to a
double, and that rounding picks a value nearest to x among all its fixed
points (the int64 magnitudes binary64 represents exactly); the decoding is
not injective above 2^53: the distinct int64 values 2^54 + 1 and 2^54 + 2,
both of magnitude above 2^53, decode to the identical JS number 2^54. -/
theorem c10_i64_decode_not_injective :
    (∀ x : Int,
      toJs (.i64 x) = some (.num (.finite ((roundIntToDouble x : Int) : ℚ)))) ∧
    (∀ x m : Int, x.natAbs < 2 ^ 64 → m.natAbs < 2 ^ 64 →
      roundIntToDouble m = m →
      (roundIntToDouble x - x).natAbs ≤ (m - x).natAbs) ∧
    roundIntToDouble (2 ^ 54 + 1) = 2 ^ 54 ∧
    roundIntToDouble (2 ^ 54 + 2) = 2 ^ 54 ∧
    (2 ^ 54 + 1 : Int) ≠ 2 ^ 54 + 2 ∧
    2 ^ 53 < (2 ^ 54 + 1 : Int).natAbs ∧
    2 ^ 53 < (2 ^ 54 + 2 : Int).natAbs ∧
    toJs (.i64 (2 ^ 54 + 1)) = toJs (.i64 (2 ^ 54 + 2)) := by
  have h1 : roundIntToDouble (2 ^ 54 + 1) = 2 ^ 54 := by decide
  have h2 : roundIntToDouble (2 ^ 54 + 2) = 2 ^ 54 := by decide
  refine ⟨fun x => by simp [toJs], roundIntToDouble_nearest,
    h1, h2, by decide, by decide, by decide, ?_⟩
  have h1l : roundIntToDouble 18014398509481985 = 18014398509481984 := by decide
  have h2l : roundIntToDouble 18014398509481986 = 18014398509481984 := by decide
  simp only [toJs,
    show (2 ^ 54 + 1 : Int) = 18014398509481985 from by norm_num,
    show (2 ^ 54 + 2 : Int) = 18014398509481986 from by norm_num, h1l, h2l]

/-! ## Claim C2: helper lemmas -/

theorem encSlot_ne_invalid (m : Msg) (h : m ≠ .invalid) : encSlot m = some m := by
  cases m <;> simp_all [encSlot]

theorem encEntry_ne_invalid (k : String) (m : Msg) (h : m ≠ .invalid) :
    encEntry k m = some (k, m) := by
  cases m <;> simp_all [encEntry]

theorem msgPreserved_ne_invalid (m : Msg) (h : msgPreserved m = true) :
    m ≠ .invalid := by
  rintro rfl
  simp [msgPreserved] at h

theorem classifyNum_shape (d : DoubleM) :
    classifyNum d = .f64 d ∨ ∃ k, classifyNum d = .i64 k := by
  cases d with
  | finite q =>
    by_cases h : ((roundIntToDouble (doubleToI64cast q) : Int) : ℚ) = q
    · exact Or.inr ⟨doubleToI64cast q, by simp [classifyNum, h]⟩
    · exact Or.inl (by simp [classifyNum, h])
  | nan => exact Or.inl rfl
  | posInf => exact Or.inl rfl
  | negInf => exact Or.inl rfl

theorem getProp_nodup (ps : List (String × JsValue)) (k : String) (v : JsValue)
    (hmem : (k, v) ∈ ps) (hnd : (ps.map Prod.fst).Nodup) : getProp ps k = v := by
  induction ps with
  | nil => cases hmem
  | cons hd rest ih =>
    obtain ⟨k1, v1⟩ := hd
    simp only [List.map_cons, List.nodup_cons] at hnd
    rcases List.mem_cons.mp hmem with heq | hmem2
    · cases heq
      simp [getProp, lookupProp]
    · have hne : k1 ≠ k := by
        rintro rfl
        exact hnd.1 (List.mem_map.mpr ⟨(k1, v), hmem2, rfl⟩)
      simp only [getProp, lookupProp, if_neg hne]
      exact ih hmem2 hnd.2

theorem fromJsProps_map (ks : List String) (ps : List (String × JsValue)) :
    fromJsProps ks ps = ks.map (fun k => encEntry k (fromJs (getProp ps k))) := by
  induction ks with
  | nil => simp [fromJsProps]
  | cons k rest ih => simp [fromJsProps, ih]

theorem dedupKeys_of_nodup (ks : List String) :
    ∀ seen : List String, ks.Nodup → (∀ k ∈ ks, k ∉ seen) →
      dedupKeys seen ks = ks := by
  induction ks with
  | nil => intro seen _ _; rfl
  | cons k rest ih =>
    intro seen hnd hdisj
    have hk : k ∉ seen := hdisj k (by simp)
    simp only [dedupKeys, if_neg hk]
    congr 1
    apply ih
    · exact (List.nodup_cons.mp hnd).2
    · intro k1 hk1
      simp only [List.mem_cons]
      rintro (rfl | hmem)
      · exact (List.nodup_cons.mp hnd).1 hk1
      · exact hdisj k1 (by simp [hk1]) hmem

theorem jsPropertyNames_of_nodup (ps : List (String × JsValue))
    (hnd : (ps.map Prod.fst).Nodup)
    (hidx : ∀ k ∈ ps.map Prod.fst, isArrayIndexKey k = false) :
    jsPropertyNames ps = ps.map Prod.fst := by
  unfold jsPropertyNames
  rw [dedupKeys_of_nodup _ [] hnd (by simp)]
  have h1 : (ps.map Prod.fst).filter (fun k => isArrayIndexKey k) = [] := by
    rw [List.filter_eq_nil_iff]
    intro a ha
    simp [hidx a ha]
  have h2 : (ps.map Prod.fst).filter (fun k => !isArrayIndexKey k) =
      ps.map Prod.fst := by
    rw [List.filter_eq_self]
    intro a ha
    simp [hidx a ha]
  rw [h1, h2]
  simp [sortIndexKeys]

theorem objSet_not_mem (acc : List (String × JsValue)) (k : String) (v : JsValue)
    (h : k ∉ acc.map Prod.fst) : objSet acc k v = acc ++ [(k, v)] := by
  induction acc with
  | nil => rfl
  | cons hd rest ih =>
    obtain ⟨k1, v1⟩ := hd
    simp only [List.map_cons, List.mem_cons] at h
    push_neg at h
    have hne : ¬ k1 = k := fun he => h.1 he.symm
    simp only [objSet, if_neg hne]
    simp [ih h.2]

theorem buildObject_go (ps : List (String × JsValue)) :
    ∀ acc : List (String × JsValue), ((acc ++ ps).map Prod.fst).Nodup →
      List.foldl (fun a kv => objSet a kv.1 kv.2) acc ps = acc ++ ps := by
  induction ps with
  | nil => intro acc _; simp
  | cons hd rest ih =>
    intro acc hnd
    obtain ⟨k, v⟩ := hd
    have hnd1 : (acc.map Prod.fst ++ k :: rest.map Prod.fst).Nodup := by
      simpa [List.map_append] using hnd
    have hmid := List.nodup_cons.mp (List.nodup_middle.mp hnd1)
    have hk : k ∉ acc.map Prod.fst :=
      fun hc => hmid.1 (List.mem_append.mpr (Or.inl hc))
    simp only [List.foldl_cons]
    rw [objSet_not_mem acc k v hk]
    have hrec := ih (acc ++ [(k, v)]) (by
      simpa [List.map_append, List.append_assoc] using hnd)
    simpa using hrec

theorem buildObject_nodup (ps : List (String × JsValue))
    (hnd : (ps.map Prod.fst).Nodup) : buildObject ps = ps := by
  have h := buildObject_go ps [] (by simpa using hnd)
  simpa [buildObject] using h

theorem slots_roundtrip (slots : List (Option Msg))
    (H : ∀ m1, some m1 ∈ slots → msgPreserved m1 = true →
      ∃ v, toJs m1 = some v ∧ fromJs v = m1)
    (hp : slotsPreserved slots = true) :
    ∃ vs, toJsSlots slots = some vs ∧ fromJsSlots vs = slots := by
  induction slots with
  | nil => exact ⟨[], by simp [toJsSlots], by simp [fromJsSlots]⟩
  | cons hd rest ih =>
    cases hd with
    | none => simp [slotsPreserved] at hp
    | some m =>
      simp only [slotsPreserved, Bool.and_eq_true] at hp
      obtain ⟨v, hv1, hv2⟩ := H m (by simp) hp.1
      obtain ⟨vs, hvs1, hvs2⟩ :=
        ih (fun m1 hm1 hpm1 => H m1 (by simp [hm1]) hpm1) hp.2
      refine ⟨v :: vs, ?_, ?_⟩
      · simp only [toJsSlots, hv1, hvs1]
      · simp only [fromJsSlots, hv2, hvs2,
          encSlot_ne_invalid m (msgPreserved_ne_invalid m hp.1)]

theorem entries_roundtrip (entries : List (Option (String × Msg)))
    (H : ∀ k m1, some (k, m1) ∈ entries → msgPreserved m1 = true →
      ∃ v, toJs m1 = some v ∧ fromJs v = m1)
    (hp : entriesPreserved entries = true) :
    ∃ ps, toJsEntries entries = some ps ∧
      ps.map Prod.fst = entryKeyList entries ∧
      ps.map (fun kv => encEntry kv.1 (fromJs kv.2)) = entries := by
  induction entries with
  | nil => exact ⟨[], by simp [toJsEntries], by simp [entryKeyList], by simp⟩
  | cons hd rest ih =>
    cases hd with
    | none => simp [entriesPreserved] at hp
    | some kv =>
      obtain ⟨k, m⟩ := kv
      simp only [entriesPreserved, Bool.and_eq_true] at hp
      obtain ⟨v, hv1, hv2⟩ := H k m (by simp) hp.1
      obtain ⟨ps, hps1, hps2, hps3⟩ :=
        ih (fun k1 m1 hm1 hpm1 => H k1 m1 (by simp [hm1]) hpm1) hp.2
      refine ⟨(k, v) :: ps, ?_, ?_, ?_⟩
      · simp only [toJsEntries, hv1, hps1]
      · simp only [List.map_cons, hps2, entryKeyList]
      · simp only [List.map_cons, hps3, hv2,
          encEntry_ne_invalid k m (msgPreserved_ne_invalid m hp.1)]

theorem roundtrip_preserved_aux :
    ∀ n : Nat, ∀ m : Msg, sizeOf m ≤ n → msgPreserved m = true →
      ∃ v, toJs m = some v ∧ fromJs v = m := by
  intro n
  induction n with
  | zero =>
    intro m hsz _
    exfalso
    cases m <;> simp at hsz
  | succ n ih =>
    intro m hsz hp
    cases m with
    | nil => exact ⟨.null, by simp [toJs], by simp [fromJs]⟩
    | bool b => exact ⟨.bool b, by simp [toJs], by simp [fromJs]⟩
    | str s => exact ⟨.str s, by simp [toJs], by simp [fromJs]⟩
    | invalid => simp [msgPreserved] at hp
    | i64 x =>
      simp only [msgPreserved, Bool.and_eq_true, decide_eq_true_eq] at hp
      obtain ⟨⟨h1, h2⟩, h3⟩ := hp
      refine ⟨.num (.finite ((x : Int) : ℚ)), ?_, ?_⟩
      · simp [toJs, h3]
      · simp only [fromJs]
        exact classifyNum_intCast x h1 h2 h3
    | f64 d =>
      rcases classifyNum_shape d with hc | ⟨k, hc⟩
      · exact ⟨.num d, by simp [toJs], by simp [fromJs, hc]⟩
      · simp [msgPreserved, hc] at hp
    | list slots =>
      simp only [msgPreserved] at hp
      obtain ⟨vs, hvs1, hvs2⟩ := slots_roundtrip slots
        (fun m1 hm1 hpm1 => ih m1 (by
          have hlt := List.sizeOf_lt_of_mem hm1
          simp only [Option.some.sizeOf_spec] at hlt
          simp only [Msg.list.sizeOf_spec] at hsz
          omega) hpm1) hp
      refine ⟨.array vs, ?_, ?_⟩
      · simp [toJs, hvs1]
      · simp [fromJs, hvs2]
    | dict entries =>
      simp only [msgPreserved, Bool.and_eq_true, decide_eq_true_eq] at hp
      obtain ⟨⟨hpe, hnd⟩, hidx⟩ := hp
      obtain ⟨ps, hps1, hkeys, hback⟩ := entries_roundtrip entries
        (fun k1 m1 hm1 hpm1 => ih m1 (by
          have hlt := List.sizeOf_lt_of_mem hm1
          simp only [Option.some.sizeOf_spec, Prod.mk.sizeOf_spec] at hlt
          simp only [Msg.dict.sizeOf_spec] at hsz
          omega) hpm1) hpe
      have hnd2 : (ps.map Prod.fst).Nodup := by
        rw [hkeys]; exact hnd
      have hidx2 : ∀ k ∈ ps.map Prod.fst, isArrayIndexKey k = false := by
        intro k hk
        rw [hkeys] at hk
        simpa using List.all_eq_true.mp hidx k hk
      refine ⟨.object (buildObject ps), ?_, ?_⟩
      · simp [toJs, hps1]
      · rw [buildObject_nodup ps hnd2]
        simp only [fromJs]
        rw [jsPropertyNames_of_nodup ps hnd2 hidx2, fromJsProps_map, List.map_map]
        congr 1
        rw [← hback]
        apply List.map_congr_left
        intro kv hkv
        simp only [Function.comp_apply]
        rw [getProp_nodup ps kv.1 kv.2 (by simpa using hkv) hnd2]

/-! ## Claim C2 -/

/-- C2 counterexample: the message F64(3.0) contains no Invalid node, yet
its round trip through the host representation re-encodes it as I64(3): the
variant tag changes, so decode-then-encode is not structurally the identity
on all Invalid-free trees.  Further conjuncts record the other failure modes
that bound the amendment: an I64 beyond exact double range comes back as a
different I64; duplicate Dict keys collapse; an array-index Dict key is
reordered to the front; an uninitialized slot or an Invalid node aborts
decoding altogether. -/
theorem c2_round_trip_counterexample :
    (roundtripMsg (.f64 (.finite 3)) = some (.i64 3) ∧
      some (Msg.i64 3) ≠ some (Msg.f64 (.finite 3))) ∧
    (roundtripMsg (.i64 (2 ^ 53 + 1)) = some (.i64 (2 ^ 53)) ∧
      (Msg.i64 (2 ^ 53) : Msg) ≠ .i64 (2 ^ 53 + 1)) ∧
    roundtripMsg (.dict [some ("a", .nil), some ("a", .nil)]) =
      some (.dict [some ("a", .nil)]) ∧
    roundtripMsg (.dict [some ("b", .nil), some ("1", .nil)]) =
      some (.dict [some ("1", .nil), some ("b", .nil)]) ∧
    roundtripMsg (.list [none]) = none ∧
    roundtripMsg (.list [some .invalid]) = none ∧
    roundtripMsg .invalid = none := by
  refine ⟨⟨?_, by simp⟩, ⟨?_, by simp⟩, ?_, ?_, ?_, ?_, ?_⟩
  · have h : classifyNum (.finite ((3 : Int) : ℚ)) = .i64 3 :=
      classifyNum_intCast 3 (by decide) (by decide) (by decide)
    norm_num at h
    simp [roundtripMsg, toJs, fromJs, h]
  · have h1 : roundIntToDouble 9007199254740993 = 9007199254740992 := by decide
    have h2 : classifyNum (.finite ((9007199254740992 : Int) : ℚ)) =
        .i64 9007199254740992 :=
      classifyNum_intCast _ (by decide) (by decide) (by decide)
    norm_num at h2
    simp [roundtripMsg, toJs, fromJs, h1, h2]
  · simp [roundtripMsg, toJs, toJsEntries, buildObject, objSet, fromJs,
      fromJsProps, jsPropertyNames, dedupKeys, sortIndexKeys, insertByVal,
      getProp, lookupProp, encEntry, List.filter,
      show isArrayIndexKey "a" = false from by decide]
  · simp [roundtripMsg, toJs, toJsEntries, buildObject, objSet, fromJs,
      fromJsProps, jsPropertyNames, dedupKeys, sortIndexKeys, insertByVal,
      getProp, lookupProp, encEntry, List.filter,
      show isArrayIndexKey "b" = false from by decide,
      show isArrayIndexKey "1" = true from by decide]
  · simp [roundtripMsg, toJs, toJsSlots]
  · simp [roundtripMsg, toJs, toJsSlots]
  · simp [roundtripMsg, toJs]

/-- C2 (amended): the round trip message → JS value → message is the
identity on every tree with no Invalid node and no uninitialized slot whose
I64 payloads are in int64 range and exactly double-representable, whose F64
payloads are not reclassified as integers by the encoder, and whose Dict
keys are pairwise distinct and not array-index strings. -/
theorem c2_round_trip_amended (m : Msg) (h : msgPreserved m = true) :
    roundtripMsg m = some m := by
  obtain ⟨v, h1, h2⟩ := roundtrip_preserved_aux (sizeOf m) m le_rfl h
  simp [roundtripMsg, h1, h2]

/-- C2 witness: the amended round-trip theorem applied to the spec's concrete
scenario value, the dict holding ("a", 1) and ("b", [true, null, 3.14]). -/
theorem c2_round_trip_witness :
    roundtripMsg (.dict [some ("a", .i64 1),
      some ("b", .list [some (.bool true), some .nil,
        some (.f64 (.finite (157 / 50)))])]) =
      some (.dict [some ("a", .i64 1),
        some ("b", .list [some (.bool true), some .nil,
          some (.f64 (.finite (157 / 50)))])]) :=
  c2_round_trip_amended _ (by
    have h : classifyNum (.finite (157 / 50 : ℚ)) = .f64 (.finite (157 / 50)) :=
      classifyNum_fracDen _ (by norm_num)
    simp [msgPreserved, slotsPreserved, entriesPreserved, entryKeyList, h,
      show roundIntToDouble 1 = 1 from by decide,
      show isArrayIndexKey "a" = false from by decide,
      show isArrayIndexKey "b" = false from by decide])

end CrossLocale
